import Mathlib

/-!
Verification development for `src/dataio/deap/make_deap_dataset.py`.

The Python module converts DEAP physiological recordings into windowed,
label-binned, sharded TFRecord datasets.  Real-valued scores are modelled
as rationals (`ℚ`), numpy arrays as nested lists, fallible operations
(out-of-range indexing, unbound names) as `Option`/`Except`, and every
random draw (`np.random.shuffle`, `np.random.permutation`,
`np.random.choice`) as an explicit permutation or index-set parameter, so
runs are functions of their inputs.
-/

/-- Python `int(q)` on a rational: truncation toward zero. -/
def pyInt (q : ℚ) : ℤ := if 0 ≤ q then ⌊q⌋ else -⌊-q⌋

/-- Modelled from the spec: Python 3 `round` (round half to even), used by
the spec's description of the validation-set size.  The source itself uses
`int(...)`; this definition exists only to compare the two. -/
def pyRound (q : ℚ) : ℤ :=
  if q - ⌊q⌋ < 1 / 2 then ⌊q⌋
  else if 1 / 2 < q - ⌊q⌋ then ⌊q⌋ + 1
  else if ⌊q⌋ % 2 = 0 then ⌊q⌋ else ⌊q⌋ + 1

/-- One half-open binning interval `[low, high)`, as produced by
`LabelTransformer.build_classes` (a pair from `zip(breaks, breaks[1:])`). -/
abbrev ClassInterval := ℚ × ℚ

/-- `LabelTransformer.build_classes` (lines 145-149): `np.linspace(min_value,
max_value, num_classes + 1)` gives breakpoints `min + i * (max - min) / n`;
pairing each with its successor yields `num_classes` half-open intervals. -/
def build_classes (num_classes : ℕ) (min_value max_value : ℚ) : List ClassInterval :=
  (List.range num_classes).map fun i =>
    (min_value + (max_value - min_value) * i / num_classes,
     min_value + (max_value - min_value) * (i + 1) / num_classes)

/-- The scan loop of `transform_label_channel_with_classes` (lines 168-172):
returns the first `(class_id, max_exclusive)` with
`min_inclusive <= v < max_exclusive`, where `max_exclusive` is the matched
interval's upper bound (the loop breaks there, leaving `max_exclusive`
bound to it). -/
def classifyFind : List ClassInterval → ℚ → ℕ → Option (ℕ × ℚ)
  | [], _, _ => none
  | (lo, hi) :: rest, v, k =>
      if lo ≤ v ∧ v < hi then some (k, hi) else classifyFind rest v (k + 1)

/-- `LabelTransformer.transform_label_channel_with_classes` (lines 167-179).
`label_channel` starts as the raw value; if an interval matches it is
reassigned to the class id and the loop breaks.  Afterwards the code runs
`if label_channel == max_exclusive: label_channel = len(classes) - 1`,
comparing whatever `label_channel` now holds (raw value or class id)
against the last value `max_exclusive` took (the matched interval's upper
bound, or the final interval's upper bound when no interval matched).
With an empty class list `max_exclusive` is unbound (Python `NameError`),
modelled as `none`.  The return value is a number: a class id when an
interval matched or the max-patch fired, otherwise the raw input. -/
def transform_label_channel_with_classes (label_channel : ℚ) (classes : List ClassInterval) :
    Option ℚ :=
  match classifyFind classes label_channel 0 with
  | some (k, max_exclusive) =>
      if (k : ℚ) = max_exclusive then some ((classes.length : ℚ) - 1) else some (k : ℚ)
  | none =>
      match classes.getLast? with
      | some c =>
          if label_channel = c.2 then some ((classes.length : ℚ) - 1) else some label_channel
      | none => none

/-- State of `LabelTransformer` after `__init__` (lines 133-143): one
interval table per label channel, each built by `build_classes` over the
default range `[1, 9]`. -/
structure LabelTransformer where
  valence_classes : List ClassInterval
  arousal_classes : List ClassInterval
  dominance_classes : List ClassInterval
  liking_classes : List ClassInterval

/-- `LabelTransformer.__init__` (lines 133-143). -/
def LabelTransformer.init (v a d l : ℕ) : LabelTransformer :=
  ⟨build_classes v 1 9, build_classes a 1 9, build_classes d 1 9, build_classes l 1 9⟩

/-- `LabelTransformer.transform_labels` (lines 151-165), `return_np=True`
variant: bins the four channels.  The source passes `self.valence_classes`
to all four calls (lines 153, 155, 157, 159). -/
def LabelTransformer.transform_labels (t : LabelTransformer) (labels : List ℚ) :
    Option (List ℚ) :=
  match labels with
  | l0 :: l1 :: l2 :: l3 :: _ => do
      let valence_label ← transform_label_channel_with_classes l0 t.valence_classes
      let arousal_label ← transform_label_channel_with_classes l1 t.valence_classes
      let dominance_label ← transform_label_channel_with_classes l2 t.valence_classes
      let liking_label ← transform_label_channel_with_classes l3 t.valence_classes
      some [valence_label, arousal_label, dominance_label, liking_label]
  | _ => none

/-- Modelled from the spec: `transform(label_vector, breakpoints_per_channel)`
"applies `classify` independently to each of the 4 channels" with each
channel's own breakpoint table.  Exists only to compare with
`LabelTransformer.transform_labels` above. -/
def LabelTransformer.transform_labels_per_channel (t : LabelTransformer) (labels : List ℚ) :
    Option (List ℚ) :=
  match labels with
  | l0 :: l1 :: l2 :: l3 :: _ => do
      let valence_label ← transform_label_channel_with_classes l0 t.valence_classes
      let arousal_label ← transform_label_channel_with_classes l1 t.arousal_classes
      let dominance_label ← transform_label_channel_with_classes l2 t.dominance_classes
      let liking_label ← transform_label_channel_with_classes l3 t.liking_classes
      some [valence_label, arousal_label, dominance_label, liking_label]
  | _ => none

/-- A `collections.deque(maxlen=n)` append: when the deque already holds `n`
elements, appending drops the leftmost element. -/
def deque_append (n : ℕ) (w : List α) (x : α) : List α :=
  if w.length < n then w ++ [x] else w.tail ++ [x]

/-- The element loop of `more_itertools.windowed(seq, n, fillvalue, step=s)`,
the library function `process_directory` uses to build its index windows
(lines 207-213).  A deque of maximum length `n` collects elements; a
countdown `i` starts at `n`, and whenever it reaches zero the deque's
contents are yielded and the countdown resets to `s`.  Returns the yielded
windows, the final deque, and the final countdown. -/
def windowed_loop (n s : ℕ) : List α → List α → ℕ → List (List α) × List α × ℕ
  | [], w, i => ([], w, i)
  | x :: xs, w, i =>
      let w2 := deque_append n w x
      if i = 1 then
        let r := windowed_loop n s xs w2 s
        (w2 :: r.1, r.2)
      else
        windowed_loop n s xs w2 (i - 1)

/-- `more_itertools.windowed(seq, n, fillvalue=fill, step=s)` after the loop:
if the deque is empty nothing more is yielded; if it holds fewer than `n`
elements (input shorter than one window) one window padded to length `n`
with `fill` is yielded; otherwise, when the final countdown `i` satisfies
`0 < i < min(step, n)` (a nonzero trailing remainder), `i` copies of
`fill` are pushed through the maximum-length deque (evicting the first `i`
elements) and the result is yielded as a final, `fill`-padded window. -/
def mit_windowed_list (n s : ℕ) (seq : List α) (fill : α) : List (List α) :=
  let r := windowed_loop n s seq [] n
  if r.2.1.length = 0 then r.1
  else if r.2.1.length < n then r.1 ++ [r.2.1 ++ List.replicate (n - r.2.1.length) fill]
  else if 0 < r.2.2 ∧ r.2.2 < min s n then
    r.1 ++ [(r.2.1 ++ List.replicate r.2.2 fill).drop r.2.2]
  else r.1

/-- The index-window list `windows` built in `process_directory`
(lines 207-213): `more_itertools.windowed(range(timeline_length),
window_length, step=step_length)` with the default fill value `None`
(modelled as `none`). -/
def mit_windowed (L n s : ℕ) : List (List (Option ℕ)) :=
  mit_windowed_list n s ((List.range L).map some) none

/-- `num_validation` in `process_directory` (line 220):
`int(total_number_available * validation_split)`. -/
def num_validation (total_number_available : ℕ) (validation_split : ℚ) : ℤ :=
  pyInt ((total_number_available : ℚ) * validation_split)

/-- The routing test of `process_file_subject_dependent` (line 504):
`int(current_sample) in validation_indices`, where `validation_indices` is
the without-replacement sample drawn by `np.random.choice` in
`process_directory` (lines 224-225), modelled as an explicit finite-set
parameter. -/
def route_to_validation (current_sample : ℕ) (validation_indices : Finset ℕ) : Bool :=
  decide (current_sample ∈ validation_indices)

/-- The counter values routed to the validation writer: `current_sample`
advances by one per emitted sample (line 508), running through
`0, ..., total - 1` across all files, and a sample goes to `test_writer`
exactly when the test on line 504 holds. -/
def validation_set (total : ℕ) (validation_indices : Finset ℕ) : Finset ℕ :=
  (Finset.range total).filter fun i => route_to_validation i validation_indices = true

/-- The counter values routed to the training writer (the `else` branch,
lines 506-507). -/
def training_set (total : ℕ) (validation_indices : Finset ℕ) : Finset ℕ :=
  (Finset.range total).filter fun i => route_to_validation i validation_indices = false

/-- Python exceptions the directory-processing driver can surface. -/
inductive PyErr where
  | nameError (ident : String)
  | valueError (msg : String)
  | unsupportedMode (mode : String)
deriving DecidableEq

/-- Control flow of `process_directory` (lines 186-307) as a function of
the `mode` string: the I/O actions performed and the outcome.  Line 199
lists the input directory before anything else; the subject-dependent
branch (lines 217-259) runs only under `mode == 'subject-dependent'`, the
subject-independent branch (lines 260-291) only under
`mode == 'subject-independent'`, and `train_names` is assigned only
inside those two branches, so under any other mode the first use
`file_dict["train"] = train_names` (line 293) raises `NameError`.  No
mode validation exists anywhere in the function. -/
def process_directory_model (mode : String) : List String × Except PyErr Unit :=
  let ops : List String := ["os.listdir(input_dir)"]
  let train_names : Option (List String) :=
    if mode = "subject-dependent" then some ["subject-dependent_train.tfrecords"]
    else if mode = "subject-independent" then
      some ["deap_subject-independent_subject02.tfrecords"]
    else none
  match train_names with
  | some _ => (ops ++ ["write windowed samples", "write meta.json"], Except.ok ())
  | none => (ops, Except.error (PyErr.nameError "train_names"))

/-- Fancy-indexing a list with a drawn index order (`lst[permutation]` on a
numpy array, or iterating a shuffled copy): the results of
`np.random.shuffle`, `np.random.permutation` and `random.shuffle` are
modelled as an explicit list of indices into the original list. -/
def apply_shuffle {α : Type} (perm : List ℕ) (l : List α) : List α :=
  perm.filterMap fun i => l[i]?

/-- `DEAPWriterBuffer.flush_buffer` (lines 98-114): a single drawn
permutation of `[0, collected)` reindexes the data buffer and the label
buffer (lines 101-106), after which the `(data, label)` rows are written
pairwise in permuted order (lines 107-113).  The two buffers are modelled
by their `collected` filled rows; the returned list is the sequence of
`write_example` calls the flush performs. -/
def flush_buffer_writes {α β : Type} (data_buffer : List α) (label_buffer : List β)
    (permutation : List ℕ) : List (α × β) :=
  (apply_shuffle permutation data_buffer).zip (apply_shuffle permutation label_buffer)

/-- One `DEAPWriter.write_example` call (lines 75-81): `itertools.cycle`
over the writers (`__enter__`, lines 52-56) hands out writer `k % n` for
the `(k+1)`-st write, `writers.index` recovers that position, and its
`records_processed` entry is incremented.  State: number of writes so far
and the per-destination counts. -/
def write_step (n : ℕ) (st : ℕ × List ℕ) : ℕ × List ℕ :=
  (st.1 + 1, st.2.set (st.1 % n) (st.2.getD (st.1 % n) 0 + 1))

/-- The `DEAPWriter` state after `k` writes to `n` destinations, starting
from `records_processed = [0] * len(filenames)` (line 47). -/
def write_k (n : ℕ) : ℕ → ℕ × List ℕ
  | 0 => (0, List.replicate n 0)
  | k + 1 => write_step n (write_k n k)

/-- `Option`-valued map over a list: the whole operation fails if any
element fails (numpy raises on any bad gather index). -/
def optMap {α β : Type} (f : α → Option β) : List α → Option (List β)
  | [] => some []
  | x :: xs => (f x).bind fun y => (optMap f xs).map fun ys => y :: ys

/-- `np.split(experiment_data, target_splits, axis=0)` in `process_file`
(lines 386-388): splits the time rows into `target_splits` equal chunks;
numpy raises if the row count is not divisible. -/
def np_split {α : Type} (l : List α) (parts : ℕ) : Option (List (List α)) :=
  if parts ≠ 0 ∧ l.length % parts = 0 then
    some ((List.range parts).map fun j =>
      (l.drop (j * (l.length / parts))).take (l.length / parts))
  else none

/-- `split_with_windows(data, windows)` (lines 511-514): `data[w, :]` for
each index window `w` gathers the rows at the window's positions; a
`None` (fill) entry or an out-of-range position is a numpy indexing
error, modelled as failure. -/
def split_with_windows {α : Type} (data : List α) (windows : List (List (Option ℕ))) :
    Option (List (List α)) :=
  optMap (fun w => optMap (fun oi => oi.bind fun i => data[i]?) w) windows

/-- Lines 475-476 of `process_file_subject_dependent`: with any configured
`processing`, the experiment data is cut to its first 32 channels
(`experiment_data = experiment_data[:, :32]`).  Rows are time steps,
entries channels. -/
def channel_trim (processing : Option String) (experiment_data : List (List ℚ)) :
    List (List ℚ) :=
  if processing.isSome then experiment_data.map fun row => row.take 32 else experiment_data

/-- The windows handed to the transform / emission stage of
`process_file_subject_dependent` for one experiment: trim the leading
samples (lines 466-467), cut the channels when processing is set (lines
475-476), then gather the index windows (lines 487-488).  The wavelet and
fft transforms (lines 490-499) and the final axis swap are external pure
functions of these windows. -/
def pfsd_experiment_windows (processing : Option String) (trim_samples : ℕ)
    (trial : List (List ℚ)) (windows : List (List (Option ℕ))) :
    Option (List (List (List ℚ))) :=
  split_with_windows (channel_trim processing (trial.drop trim_samples)) windows

/-- The per-experiment loop of `process_file` with `method='own'` (lines
379-394), running on the already trimmed-and-shuffled trial array:
experiment `e` reads the shuffled data at position `e` but the labels at
the original position `e` (`labels[experiment, :]`, line 381 — the labels
array is not co-shuffled), bins the label vector, splits the rows into
`target_splits` equal windows, shuffles the window order in place
(`random.shuffle`, line 389), and writes each window transposed to
sensors-first order together with the binned labels.  Returns the written
`(sample, labels)` records in write order. -/
def process_file_own_core (shuffled : List (List (List ℚ))) (labels : List (List ℚ))
    (t : LabelTransformer) (window_perms : ℕ → List ℕ) (target_splits : ℕ) :
    Option (List (List (List ℚ) × List ℚ)) :=
  (optMap (fun e => do
      let ed ← shuffled[e]?
      let el ← labels[e]?
      let tl ← t.transform_labels el
      let sed ← np_split ed target_splits
      let sed2 := apply_shuffle (window_perms e) sed
      some (sed2.map fun sample => (sample.transpose, tl)))
    (List.range shuffled.length)).map List.flatten

/-- `process_file` with `method='own'` (lines 347-394), as called by the
subject-independent branch of `process_directory` (lines 272-286): the
decoded array is reordered to experiment x time x channel (line 362), a
`LabelTransformer` is built from the four class counts (lines 365-371),
the leading samples are trimmed (lines 373-374), and the trial order is
shuffled in place by `np.random.shuffle(data)` (line 378) — modelled by
the explicit index order `trial_perm` — before the per-experiment loop
runs. -/
def process_file_own (data : List (List (List ℚ))) (labels : List (List ℚ))
    (valence_classes arousal_classes dominance_classes liking_classes : ℕ)
    (trial_perm : List ℕ) (window_perms : ℕ → List ℕ)
    (trim_samples : ℕ) (target_splits : ℕ) :
    Option (List (List (List ℚ) × List ℚ)) :=
  process_file_own_core
    (apply_shuffle trial_perm (data.map fun tr => tr.drop trim_samples))
    labels
    (LabelTransformer.init valence_classes arousal_classes dominance_classes liking_classes)
    window_perms target_splits

/-- Claim C1: the claim says each channel is binned with its own breakpoint
table.  The code bins every channel with the valence table: with class
counts `(2, 4, 2, 2)` and label vector `(2, 8, 2, 2)`, the code gives the
arousal score 8 class 1 (valence's 2-class table `[1,5), [5,9)`), while
binning with the arousal channel's own 4-class table gives class 3. -/
theorem C1_uses_valence_table_for_all :
    (LabelTransformer.init 2 4 2 2).transform_labels [2, 8, 2, 2] = some [0, 1, 0, 0] ∧
    (LabelTransformer.init 2 4 2 2).transform_labels_per_channel [2, 8, 2, 2] =
      some [0, 3, 0, 0] := by
  have h2 : List.range 2 = [0, 1] := rfl
  have h4 : List.range 4 = [0, 1, 2, 3] := rfl
  constructor <;>
    norm_num [LabelTransformer.transform_labels, LabelTransformer.transform_labels_per_channel,
      LabelTransformer.init, transform_label_channel_with_classes, classifyFind,
      build_classes, h2, h4]

/-- Claim C2: the claim says classifying `v` returns the index of the first
interval `[low, high)` containing `v`.  With 16 classes over `[1, 9]` the
value `2.75` lies in interval 3 = `[2.5, 3)` (as `classifyFind` attests),
but since the class id 3 equals that interval's upper bound 3, the
max-value patch (meant, per the code's own comment, only for the maximum
score 9.0) fires and the code returns the last class, 15. -/
theorem C2_maxpatch_misfire :
    transform_label_channel_with_classes (11 / 4) (build_classes 16 1 9) = some 15 ∧
    classifyFind (build_classes 16 1 9) (11 / 4) 0 = some (3, 3) := by
  have h16 : List.range 16 = [0, 1, 2, 3, 4, 5, 6, 7, 8, 9, 10, 11, 12, 13, 14, 15] := rfl
  constructor <;>
    norm_num [transform_label_channel_with_classes, classifyFind, build_classes, h16]

/-- Claim C3: the claim says classifying a value outside `[min, max]` fails
with an `OutOfRangeLabel` condition and never silently returns the
unbinned input.  The code has no range check: for `v = 0.5 < min = 1` with
2 classes, no interval matches, the max patch does not fire, and the raw
unbinned input `0.5` is returned as if it were a class id. -/
theorem C3_out_of_range_silent :
    transform_label_channel_with_classes (1 / 2) (build_classes 2 1 9) = some (1 / 2) := by
  have h2 : List.range 2 = [0, 1] := rfl
  norm_num [transform_label_channel_with_classes, classifyFind, build_classes, h2]

lemma range'_drop (i : ℕ) : ∀ (a m : ℕ), (List.range' a m).drop i = List.range' (a + i) (m - i) := by
  induction i with
  | zero => intro a m; simp
  | succ i ih =>
      intro a m
      cases m with
      | zero => simp
      | succ m =>
          rw [List.range'_succ, List.drop_succ_cons, ih (a + 1) m]
          congr 1 <;> omega

lemma drop_append_le {α : Type} (x y : List α) : ∀ (i : ℕ), i ≤ x.length →
    (x ++ y).drop i = x.drop i ++ y := by
  induction x with
  | nil =>
      intro i hi
      have : i = 0 := by simpa using hi
      subst this
      simp
  | cons a x ih =>
      intro i hi
      cases i with
      | zero => simp
      | succ i => simpa using ih i (by simpa using hi)

lemma windowed_loop_cons_one {α : Type} (n s : ℕ) (x : α) (xs w : List α) :
    windowed_loop n s (x :: xs) w 1 =
      (deque_append n w x :: (windowed_loop n s xs (deque_append n w x) s).1,
       (windowed_loop n s xs (deque_append n w x) s).2) := by
  simp [windowed_loop]

lemma windowed_loop_cons_ne {α : Type} (n s : ℕ) (x : α) (xs w : List α) (i : ℕ) (h : i ≠ 1) :
    windowed_loop n s (x :: xs) w i = windowed_loop n s xs (deque_append n w x) (i - 1) := by
  simp [windowed_loop, h]

lemma deque_append_sliding (n b wl c : ℕ) (hwl : wl ≤ n) (hn : 1 ≤ n) (hbc : b + wl = c) :
    deque_append n ((List.range' b wl).map some) (some c) =
      (List.range' (if wl < n then b else b + 1) (min n (wl + 1))).map some := by
  unfold deque_append
  simp only [List.length_map, List.length_range']
  by_cases h : wl < n
  · rw [if_pos h, if_pos h]
    have hmin : min n (wl + 1) = wl + 1 := by omega
    rw [hmin, List.range'_1_concat, hbc, List.map_append, List.map_singleton]
  · rw [if_neg h, if_neg h]
    have hwln : wl = n := by omega
    have hmin : min n (wl + 1) = n := by omega
    subst hwln
    rw [hmin, ← List.map_tail, List.tail_range']
    have h1 : wl = (wl - 1) + 1 := by omega
    have h2 : List.range' (b + 1) wl = List.range' (b + 1) (wl - 1) ++ [(b + 1) + (wl - 1)] := by
      calc List.range' (b + 1) wl = List.range' (b + 1) ((wl - 1) + 1) := by rw [← h1]
        _ = List.range' (b + 1) (wl - 1) ++ [(b + 1) + (wl - 1)] := List.range'_1_concat _ _
    have h3 : (b + 1) + (wl - 1) = c := by omega
    rw [h2, h3, List.map_append, List.map_singleton]

theorem windowed_loop_spec (n s : ℕ) (hn : 1 ≤ n) (hs : 1 ≤ s) :
    ∀ (m c b wl i : ℕ), wl ≤ n → 1 ≤ i → n ≤ i + wl → b + wl = c →
      (∀ y ∈ (windowed_loop n s ((List.range' c m).map some)
          ((List.range' b wl).map some) i).1,
        ∃ a, a + n ≤ c + m ∧ y = (List.range' a n).map some) ∧
      (windowed_loop n s ((List.range' c m).map some)
          ((List.range' b wl).map some) i).2.1
        = (List.range' (c + m - min n (wl + m)) (min n (wl + m))).map some := by
  intro m
  induction m with
  | zero =>
      intro c b wl i hwl hi hni hbc
      constructor
      · intro y hy
        simp [windowed_loop] at hy
      · simp only [List.range'_zero, List.map_nil, windowed_loop]
        have h1 : min n (wl + 0) = wl := by omega
        rw [h1]
        have h2 : c + 0 - wl = b := by omega
        rw [h2]
  | succ m ih =>
      intro c b wl i hwl hi hni hbc
      rw [List.range'_succ, List.map_cons]
      have hw2 := deque_append_sliding n b wl c hwl hn hbc
      set b2 := if wl < n then b else b + 1 with hb2
      have hb2c : b2 + min n (wl + 1) = c + 1 := by
        rw [hb2]; split <;> omega
      by_cases hi1 : i = 1
      · subst hi1
        have hmin1 : min n (wl + 1) = n := by omega
        rw [hmin1] at hw2 hb2c
        rw [windowed_loop_cons_one, hw2]
        have hrec := ih (c + 1) b2 n s le_rfl hs (by omega) hb2c
        dsimp only
        constructor
        · intro y hy
          rcases List.mem_cons.mp hy with hy | hy
          · exact ⟨b2, by omega, hy⟩
          · rcases hrec.1 y hy with ⟨a, ha, hya⟩
            exact ⟨a, by omega, hya⟩
        · rw [hrec.2]
          have e1 : min n (n + m) = n := by omega
          have e2 : min n (wl + (m + 1)) = n := by omega
          have e3 : c + 1 + m = c + (m + 1) := by omega
          rw [e1, e2, e3]
      · rw [windowed_loop_cons_ne _ _ _ _ _ _ hi1, hw2]
        have hrec := ih (c + 1) b2 (min n (wl + 1)) (i - 1)
          (by omega) (by omega) (by omega) hb2c
        constructor
        · intro y hy
          rcases hrec.1 y hy with ⟨a, ha, hya⟩
          exact ⟨a, by omega, hya⟩
        · rw [hrec.2]
          have e1 : min n (min n (wl + 1) + m) = min n (wl + (m + 1)) := by omega
          have e3 : c + 1 + m = c + (m + 1) := by omega
          rw [e1, e3]

/-- Claim C4 (amended): every index window the windower generates has
exactly `window_length` slots; its filled slots form a contiguous,
strictly increasing run of positions inside `[0, timeline_length)`, and
fill slots (`none`), if any, form the trailing end of the window — a
trailing remainder shorter than `window_length` is emitted as such a
padded window rather than dropped. -/
theorem C4_window_shape (L n s : ℕ) (hn : 1 ≤ n) (hs : 1 ≤ s) :
    ∀ w ∈ mit_windowed L n s, ∃ a m, m ≤ n ∧ a + m ≤ L ∧
      w = (List.range' a m).map some ++ List.replicate (n - m) none ∧
      w.length = n := by
  intro w hw
  have hspec := windowed_loop_spec n s hn hs L 0 0 0 n (Nat.zero_le n) hn (by omega) rfl
  rw [List.range'_zero, List.map_nil] at hspec
  unfold mit_windowed mit_windowed_list at hw
  rw [List.range_eq_range'] at hw
  set r := windowed_loop n s ((List.range' 0 L).map some) [] n with hr
  have hdeq : r.2.1 = (List.range' (L - min n L) (min n L)).map some := by
    have h2 := hspec.2
    have e1 : min n (0 + L) = min n L := by omega
    have e2 : (0 : ℕ) + L = L := by omega
    rw [e1, e2] at h2
    exact h2
  have hfull : ∀ y ∈ r.1, ∃ a m, m ≤ n ∧ a + m ≤ L ∧
      y = (List.range' a m).map some ++ List.replicate (n - m) none ∧ y.length = n := by
    intro y hy
    rcases hspec.1 y hy with ⟨a, ha, hya⟩
    refine ⟨a, n, le_rfl, by omega, ?_, ?_⟩
    · rw [hya]; simp
    · rw [hya]; simp
  have hlen : r.2.1.length = min n L := by rw [hdeq]; simp
  by_cases h0 : r.2.1.length = 0
  · rw [if_pos h0] at hw
    exact hfull w hw
  · rw [if_neg h0] at hw
    by_cases hsm : r.2.1.length < n
    · rw [if_pos hsm] at hw
      rcases List.mem_append.mp hw with hw | hw
      · exact hfull w hw
      · have hww : w = r.2.1 ++ List.replicate (n - r.2.1.length) none :=
          List.mem_singleton.mp hw
        refine ⟨L - min n L, min n L, by omega, by omega, ?_, ?_⟩
        · rw [hww, hlen, hdeq]
        · rw [hww, List.length_append, List.length_replicate, hlen]
          omega
    · by_cases hcond : 0 < r.2.2 ∧ r.2.2 < min s n
      · rw [if_neg hsm, if_pos hcond] at hw
        rcases List.mem_append.mp hw with hw | hw
        · exact hfull w hw
        · have hminn : min n L = n := by omega
          have hnL : n ≤ L := by omega
          have hww : w = (r.2.1 ++ List.replicate r.2.2 none).drop r.2.2 :=
            List.mem_singleton.mp hw
          have hin : r.2.2 ≤ n := by omega
          have hdrop : (r.2.1 ++ List.replicate r.2.2 none).drop r.2.2
              = (List.range' (L - n + r.2.2) (n - r.2.2)).map some
                ++ List.replicate r.2.2 none := by
            rw [hdeq, hminn, drop_append_le _ _ r.2.2 (by simp; omega),
              ← List.map_drop, range'_drop]
          refine ⟨L - n + r.2.2, n - r.2.2, by omega, by omega, ?_, ?_⟩
          · rw [hww, hdrop]
            congr 2
            omega
          · rw [hww, hdrop, List.length_append, List.length_replicate,
              List.length_map, List.length_range']
            omega
      · rw [if_neg hsm, if_neg hcond] at hw
        exact hfull w hw

/-- Claim C4 (counterexample to the claim as stated): with timeline length
10, window length 4 and step 4, the trailing remainder `(8, 9)` is not
dropped — `more_itertools.windowed` emits a third window padded with the
fill value `None`, so not every generated window consists of
`window_length` in-range integer positions. -/
theorem C4_remainder_padded :
    mit_windowed 10 4 4 =
      [[some 0, some 1, some 2, some 3], [some 4, some 5, some 6, some 7],
       [some 8, some 9, none, none]] ∧
    ¬ ∀ w ∈ mit_windowed 10 4 4, ∀ x ∈ w, x.isSome := by
  decide

/-- Claim C4 witness: the amended window-shape theorem evaluated at the
concrete padded window of `mit_windowed 10 4 4`. -/
theorem C4_window_shape_witness :
    (1 ≤ 4) ∧ ([some 8, some 9, none, none] ∈ mit_windowed 10 4 4) ∧
    (∃ a m, m ≤ 4 ∧ a + m ≤ 10 ∧
      ([some 8, some 9, none, none] : List (Option ℕ)) =
        (List.range' a m).map some ++ List.replicate (4 - m) none ∧
      ([some 8, some 9, none, none] : List (Option ℕ)).length = 4) :=
  ⟨by decide, by decide,
    C4_window_shape 10 4 4 (by decide) (by decide) [some 8, some 9, none, none] (by decide)⟩

/-- Claim C5 (counterexample to the claim as stated): the claim says the
validation set has exactly `round(total * validation_split)` members, but
the source computes `int(total * validation_split)`, which truncates: for
`total = 2` and `validation_split = 3/4` the code draws 1 validation
index, while `round(2 * 3/4) = round(1.5) = 2`. -/
theorem C5_int_is_not_round :
    num_validation 2 (3 / 4) = 1 ∧ pyRound ((2 : ℚ) * (3 / 4)) = 2 ∧
    num_validation 2 (3 / 4) ≠ pyRound ((2 : ℚ) * (3 / 4)) := by
  refine ⟨?_, ?_, ?_⟩ <;> norm_num [num_validation, pyInt, pyRound]

/-- Claim C5 (amended): the validation index set is a without-replacement
random sample of exactly `int(total * validation_split)` (truncation, not
rounding) indices from `[0, total)`; each emitted sample is routed to
validation iff its global counter value is a member of that set, the
remaining `total - int(total * validation_split)` samples all go to
training, and the two partitions are disjoint and together exhaust the
counter values. -/
theorem C5_split_exactness (total : ℕ) (split : ℚ) (vi : Finset ℕ)
    (hsub : vi ⊆ Finset.range total)
    (hcard : (vi.card : ℤ) = num_validation total split) :
    validation_set total vi = vi ∧
    ((validation_set total vi).card : ℤ) = num_validation total split ∧
    ((training_set total vi).card : ℤ) = (total : ℤ) - num_validation total split ∧
    validation_set total vi ∩ training_set total vi = ∅ ∧
    validation_set total vi ∪ training_set total vi = Finset.range total := by
  have hval : validation_set total vi = vi := by
    ext i
    simp only [validation_set, route_to_validation, Finset.mem_filter, Finset.mem_range,
      decide_eq_true_eq]
    exact ⟨fun h => h.2, fun h => ⟨Finset.mem_range.mp (hsub h), h⟩⟩
  have htr : training_set total vi = Finset.range total \ vi := by
    ext i
    simp only [training_set, route_to_validation, Finset.mem_filter, Finset.mem_range,
      Finset.mem_sdiff, decide_eq_false_iff_not]
  have hle : vi.card ≤ total := by
    have := Finset.card_le_card hsub
    simpa using this
  refine ⟨hval, by rw [hval]; exact hcard, ?_, ?_, ?_⟩
  · rw [htr, Finset.card_sdiff hsub, Finset.card_range, ← hcard]
    omega
  · rw [hval, htr]
    exact Finset.inter_sdiff_self vi (Finset.range total)
  · rw [hval, htr]
    exact Finset.union_sdiff_of_subset hsub

/-- Claim C5 witness: the amended split-exactness theorem at `total = 10`,
`validation_split = 1/5` (so `int(10 * 1/5) = 2` validation indices) and
the concrete drawn index set `{0, 5}`. -/
theorem C5_split_exactness_witness :
    (({0, 5} : Finset ℕ) ⊆ Finset.range 10 ∧
      ((({0, 5} : Finset ℕ).card : ℤ) = num_validation 10 (1 / 5))) ∧
    (validation_set 10 {0, 5} = {0, 5} ∧
     ((validation_set 10 {0, 5}).card : ℤ) = num_validation 10 (1 / 5) ∧
     ((training_set 10 {0, 5}).card : ℤ) = ((10 : ℕ) : ℤ) - num_validation 10 (1 / 5) ∧
     validation_set 10 {0, 5} ∩ training_set 10 {0, 5} = ∅ ∧
     validation_set 10 {0, 5} ∪ training_set 10 {0, 5} = Finset.range 10) :=
  ⟨⟨by decide, by norm_num [num_validation, pyInt]⟩,
    C5_split_exactness 10 (1 / 5) {0, 5} (by decide) (by norm_num [num_validation, pyInt])⟩

/-- Claim C9 (counterexample to the claim as stated): with the unsupported
mode string `"bogus"` the run does not abort with an `UnsupportedMode`
condition before any I/O; it lists the input directory and then dies with
a `NameError` on `train_names` when assembling the manifest dictionary. -/
theorem C9_no_mode_validation :
    process_directory_model "bogus" ≠ ([], Except.error (PyErr.unsupportedMode "bogus")) ∧
    process_directory_model "bogus"
      = (["os.listdir(input_dir)"], Except.error (PyErr.nameError "train_names")) := by
  constructor <;> simp [process_directory_model]

/-- Claim C9 (amended): if the configured mode is neither
`subject-dependent` nor `subject-independent`, the run performs the
input-directory listing (I/O), executes neither processing branch, writes
no output, and fails with a `NameError` on the unbound `train_names`
while building the manifest dictionary — there is no `UnsupportedMode`
validation. -/
theorem C9_unknown_mode_nameerror (mode : String)
    (h1 : mode ≠ "subject-dependent") (h2 : mode ≠ "subject-independent") :
    process_directory_model mode
      = (["os.listdir(input_dir)"], Except.error (PyErr.nameError "train_names")) := by
  simp [process_directory_model, h1, h2]

/-- Claim C9 witness: the amended theorem at the concrete mode `"bogus"`. -/
theorem C9_unknown_mode_nameerror_witness :
    (("bogus" : String) ≠ "subject-dependent") ∧ (("bogus" : String) ≠ "subject-independent") ∧
    process_directory_model "bogus"
      = (["os.listdir(input_dir)"], Except.error (PyErr.nameError "train_names")) :=
  ⟨by decide, by decide, C9_unknown_mode_nameerror "bogus" (by decide) (by decide)⟩

lemma filterMap_getElem_range' {α : Type} : ∀ (m a : ℕ) (l : List α), a + m ≤ l.length →
    (List.range' a m).filterMap (fun i => l[i]?) = (l.drop a).take m := by
  intro m
  induction m with
  | zero => intro a l _; simp
  | succ m ih =>
      intro a l h
      have ha : a < l.length := by omega
      rw [List.range'_succ,
        List.filterMap_cons_some (List.getElem?_eq_getElem ha),
        ih (a + 1) l (by omega), List.drop_eq_getElem_cons ha, List.take_succ_cons]

lemma apply_shuffle_range {α : Type} (l : List α) :
    apply_shuffle (List.range l.length) l = l := by
  unfold apply_shuffle
  rw [List.range_eq_range', filterMap_getElem_range' l.length 0 l (by omega)]
  simp

lemma zip_filterMap_pair {α β : Type} (data : List α) (labels : List β)
    (hlen : labels.length = data.length) :
    ∀ (perm : List ℕ),
      (apply_shuffle perm data).zip (apply_shuffle perm labels)
        = apply_shuffle perm (data.zip labels) := by
  intro perm
  induction perm with
  | nil => simp [apply_shuffle]
  | cons i p ih =>
      unfold apply_shuffle at ih ⊢
      by_cases hi : i < data.length
      · have hi2 : i < labels.length := by omega
        have hd : data[i]? = some data[i] := List.getElem?_eq_getElem hi
        have hl : labels[i]? = some labels[i] := List.getElem?_eq_getElem hi2
        have hz : (data.zip labels)[i]? = some (data[i], labels[i]) :=
          List.getElem?_zip_eq_some.mpr ⟨hd, hl⟩
        rw [List.filterMap_cons_some hd, List.filterMap_cons_some hl,
          List.filterMap_cons_some hz, List.zip_cons_cons, ih]
      · have hd : data[i]? = none := List.getElem?_eq_none (by omega)
        have hl : labels[i]? = none := List.getElem?_eq_none (by omega)
        have hz : (data.zip labels)[i]? = none :=
          List.getElem?_eq_none (by rw [List.length_zip]; omega)
        rw [List.filterMap_cons_none hd, List.filterMap_cons_none hl,
          List.filterMap_cons_none hz, ih]

/-- Claim C7: `flush_buffer` applies exactly one permutation identically to
the sample buffer and the label buffer and writes the pairs in permuted
order, so the persisted stream is the drawn permutation applied to the
zipped `(sample, label)` pairs, and the multiset of persisted pairs is
exactly the multiset of appended pairs — every label is persisted with
the sample it was appended with. -/
theorem C7_paired_shuffle {α β : Type} (data_buffer : List α) (label_buffer : List β)
    (permutation : List ℕ)
    (hlen : label_buffer.length = data_buffer.length)
    (hperm : permutation.Perm (List.range data_buffer.length)) :
    flush_buffer_writes data_buffer label_buffer permutation
      = apply_shuffle permutation (data_buffer.zip label_buffer) ∧
    (flush_buffer_writes data_buffer label_buffer permutation).Perm
      (data_buffer.zip label_buffer) := by
  have h1 : flush_buffer_writes data_buffer label_buffer permutation
      = apply_shuffle permutation (data_buffer.zip label_buffer) :=
    zip_filterMap_pair data_buffer label_buffer hlen permutation
  refine ⟨h1, ?_⟩
  rw [h1]
  have hzlen : (data_buffer.zip label_buffer).length = data_buffer.length := by
    rw [List.length_zip]; omega
  have h2 : apply_shuffle (List.range data_buffer.length) (data_buffer.zip label_buffer)
      = data_buffer.zip label_buffer := by
    rw [← hzlen]
    exact apply_shuffle_range (data_buffer.zip label_buffer)
  have h3 : (apply_shuffle permutation (data_buffer.zip label_buffer)).Perm
      (apply_shuffle (List.range data_buffer.length) (data_buffer.zip label_buffer)) :=
    hperm.filterMap _
  rw [h2] at h3
  exact h3

/-- Claim C7 witness: the paired-shuffle theorem at a concrete 3-row buffer
and the permutation `[2, 0, 1]`. -/
theorem C7_paired_shuffle_witness :
    (([100, 200, 300] : List ℕ).length = ([10, 20, 30] : List ℕ).length ∧
      ([2, 0, 1] : List ℕ).Perm (List.range ([10, 20, 30] : List ℕ).length)) ∧
    (flush_buffer_writes [10, 20, 30] [100, 200, 300] [2, 0, 1]
        = apply_shuffle [2, 0, 1] (([10, 20, 30] : List ℕ).zip [100, 200, 300]) ∧
     (flush_buffer_writes [10, 20, 30] [100, 200, 300] [2, 0, 1]).Perm
        (([10, 20, 30] : List ℕ).zip [100, 200, 300])) :=
  ⟨⟨rfl, by decide⟩, C7_paired_shuffle [10, 20, 30] [100, 200, 300] [2, 0, 1] rfl (by decide)⟩

lemma succ_divmod (n k : ℕ) (hn : 1 ≤ n) :
    ((k + 1) % n = k % n + 1 ∧ (k + 1) / n = k / n) ∨
    (k % n + 1 = n ∧ (k + 1) % n = 0 ∧ (k + 1) / n = k / n + 1) := by
  have h1 : n * (k / n) + k % n = k := Nat.div_add_mod k n
  have h3 : k % n < n := Nat.mod_lt k (by omega)
  rcases Nat.lt_or_ge (k % n + 1) n with h | h
  · left
    have hk : k + 1 = n * (k / n) + (k % n + 1) := by omega
    constructor
    · rw [hk, Nat.mul_add_mod, Nat.mod_eq_of_lt h]
    · rw [hk, Nat.mul_add_div (by omega), Nat.div_eq_of_lt h]
      omega
  · right
    have hrn : k % n + 1 = n := by omega
    have hk : k + 1 = n * (k / n + 1) := by
      rw [Nat.mul_succ]
      omega
    refine ⟨hrn, ?_, ?_⟩
    · rw [hk, Nat.mul_mod_right]
    · rw [hk, Nat.mul_div_cancel_left _ (by omega)]

lemma write_k_fst (n : ℕ) : ∀ k, (write_k n k).1 = k := by
  intro k
  induction k with
  | zero => rfl
  | succ k ih =>
      show (write_step n (write_k n k)).1 = k + 1
      unfold write_step
      rw [ih]

lemma getD_map_range (f : ℕ → ℕ) (n j : ℕ) (h : j < n) :
    ((List.range n).map f).getD j 0 = f j := by
  rw [List.getD_eq_getElem?_getD, List.getElem?_map, List.getElem?_range h]
  rfl

lemma write_k_counts (n : ℕ) (hn : 1 ≤ n) :
    ∀ k, (write_k n k).2 = (List.range n).map fun j => k / n + if j < k % n then 1 else 0 := by
  intro k
  induction k with
  | zero =>
      have e : (fun j => 0 / n + if j < 0 % n then 1 else 0) = fun _ : ℕ => 0 := by
        funext j
        simp
      show List.replicate n 0 = _
      rw [e, List.map_const', List.length_range]
  | succ k ih =>
      show (write_step n (write_k n k)).2 = _
      unfold write_step
      rw [write_k_fst, ih, getD_map_range _ _ _ (Nat.mod_lt k (by omega))]
      apply List.ext_getElem?
      intro j
      by_cases hj : j < n
      · rw [List.getElem?_set]
        rcases eq_or_ne (k % n) j with hkj | hkj
        · rw [if_pos hkj]
          have hlt : k % n <
              ((List.range n).map fun j => k / n + if j < k % n then 1 else 0).length := by
            simp only [List.length_map, List.length_range]
            exact Nat.mod_lt k (by omega)
          rw [if_pos hlt, List.getElem?_map, List.getElem?_range hj]
          simp only [Option.map_some', Option.some.injEq]
          rcases succ_divmod n k hn with ⟨e1, e2⟩ | ⟨hrn, e1, e2⟩ <;>
            rw [e1, e2] <;> split_ifs <;> omega
        · rw [if_neg hkj]
          simp only [List.getElem?_map, List.getElem?_range hj, Option.map_some',
            Option.some.injEq]
          rcases succ_divmod n k hn with ⟨e1, e2⟩ | ⟨hrn, e1, e2⟩ <;>
            rw [e1, e2] <;> split_ifs <;> omega
      · have hj2 : n ≤ j := by omega
        rw [List.getElem?_eq_none, List.getElem?_eq_none]
        · simp only [List.length_map, List.length_range]
          omega
        · simp only [List.length_set, List.length_map, List.length_range]
          omega

lemma sum_set_add_one : ∀ (l : List ℕ) (j : ℕ), j < l.length →
    (l.set j (l.getD j 0 + 1)).sum = l.sum + 1 := by
  intro l
  induction l with
  | nil => intro j hj; simp at hj
  | cons x t ih =>
      intro j hj
      cases j with
      | zero => simp [Nat.add_assoc, Nat.add_comm, Nat.add_left_comm]
      | succ j =>
          have hj2 : j < t.length := by simpa using hj
          simp only [List.getD_cons_succ, List.set_cons_succ, List.sum_cons, ih j hj2]
          omega

lemma write_k_len (n : ℕ) (hn : 1 ≤ n) (k : ℕ) : (write_k n k).2.length = n := by
  rw [write_k_counts n hn k]
  simp

lemma write_k_sum (n : ℕ) (hn : 1 ≤ n) : ∀ k, (write_k n k).2.sum = k := by
  intro k
  induction k with
  | zero => simp [write_k]
  | succ k ih =>
      show (write_step n (write_k n k)).2.sum = k + 1
      unfold write_step
      rw [write_k_fst, sum_set_add_one _ _ (by
        rw [write_k_len n hn k]
        exact Nat.mod_lt k (by omega)), ih]

lemma count_mod_range (n j : ℕ) (hn : 1 ≤ n) (hj : j < n) :
    ∀ k, ((List.range k).filter fun i => i % n == j).length
      = k / n + if j < k % n then 1 else 0 := by
  intro k
  induction k with
  | zero => simp
  | succ k ih =>
      rw [List.range_succ, List.filter_append, List.length_append, ih]
      have hsingle : (List.filter (fun i => i % n == j) [k]).length
          = if k % n = j then 1 else 0 := by
        simp only [List.filter_cons, List.filter_nil]
        by_cases hkj : k % n = j
        · rw [if_pos (by simpa using hkj), if_pos hkj]
          rfl
        · rw [if_neg (by simpa using hkj), if_neg hkj]
          rfl
      rw [hsingle]
      rcases succ_divmod n k hn with ⟨e1, e2⟩ | ⟨hrn, e1, e2⟩ <;>
        rw [e1, e2] <;> split_ifs <;> omega

/-- Claim C8: for a writer over `n >= 1` destinations, after any `k` writes
the per-destination counts sum to `k` and each is `floor(k/n)` or
`ceil(k/n)` (`ceil(k/n) = (k + n - 1) / n`), because consecutive writes
cycle through destinations `0, 1, ..., n-1, 0, ...` — destination `j`
receives exactly the writes whose ordinal is congruent to `j` modulo
`n`. -/
theorem C8_round_robin (n k : ℕ) (hn : 1 ≤ n) :
    (write_k n k).2.length = n ∧
    (write_k n k).2.sum = k ∧
    (∀ j, j < n → (write_k n k).2.getD j 0 = k / n ∨
        (write_k n k).2.getD j 0 = (k + n - 1) / n) ∧
    (∀ j, j < n → (write_k n k).2.getD j 0
        = ((List.range k).filter fun i => i % n == j).length) := by
  have hcnt : ∀ j, j < n → (write_k n k).2.getD j 0
      = k / n + if j < k % n then 1 else 0 := by
    intro j hj
    rw [write_k_counts n hn k, getD_map_range _ _ _ hj]
  refine ⟨write_k_len n hn k, write_k_sum n hn k, ?_, ?_⟩
  · intro j hj
    rw [hcnt j hj]
    have h1 : n * (k / n) + k % n = k := Nat.div_add_mod k n
    have h3 : k % n < n := Nat.mod_lt k (by omega)
    by_cases hjr : j < k % n
    · right
      have hlt9 : k % n - 1 < n := by omega
      have hk : k + n - 1 = n * (k / n + 1) + (k % n - 1) := by
        rw [Nat.mul_succ]
        omega
      have hceil : (k + n - 1) / n = k / n + 1 := by
        rw [hk, Nat.mul_add_div (by omega : 0 < n), Nat.div_eq_of_lt hlt9]
      rw [if_pos hjr, hceil]
    · left
      rw [if_neg hjr]
      omega
  · intro j hj
    rw [hcnt j hj, count_mod_range n j hn hj k]

/-- Claim C8 witness: the round-robin theorem at `n = 3` destinations and
`k = 7` writes (counts `[3, 2, 2]`). -/
theorem C8_round_robin_witness :
    (1 ≤ 3) ∧ (write_k 3 7).2.length = 3 ∧ (write_k 3 7).2.sum = 7 :=
  ⟨by decide, (C8_round_robin 3 7 (by decide)).1, (C8_round_robin 3 7 (by decide)).2.1⟩

lemma optMap_mem {α β : Type} (f : α → Option β) :
    ∀ (l : List α) (ys : List β), optMap f l = some ys → ∀ y ∈ ys, ∃ x ∈ l, f x = some y := by
  intro l
  induction l with
  | nil =>
      intro ys h y hy
      simp only [optMap, Option.some.injEq] at h
      subst h
      simp at hy
  | cons x xs ih =>
      intro ys h y hy
      unfold optMap at h
      cases hfx : f x with
      | none => rw [hfx] at h; simp at h
      | some b =>
          rw [hfx] at h
          cases hrest : optMap f xs with
          | none => rw [hrest] at h; simp at h
          | some bs =>
              rw [hrest] at h
              simp only [Option.some_bind, Option.map_some', Option.some.injEq] at h
              subst h
              rcases List.mem_cons.mp hy with hy | hy
              · exact ⟨x, List.mem_cons_self x xs, by rw [hfx, hy]⟩
              · rcases ih bs hrest y hy with ⟨x2, hx2, hfx2⟩
                exact ⟨x2, List.mem_cons_of_mem x hx2, hfx2⟩

/-- Claim C10: in subject-dependent mode, whenever a wavelet or fft
transform is configured, every window row handed to the
transform/emission stage is the first-32-channel prefix of a
(time-trimmed) row of the trial; with processing unset, every window row
is an untouched row of the trial — all channels are kept.  The configured
transform and the axis swap are pure functions of these windows, so every
emitted sample is built from them alone. -/
theorem C10_channel_selection (processing : Option String) (trim_samples : ℕ)
    (trial : List (List ℚ)) (windows : List (List (Option ℕ)))
    (sds : List (List (List ℚ)))
    (hs : pfsd_experiment_windows processing trim_samples trial windows = some sds) :
    ((processing = some "wavelet" ∨ processing = some "fft") →
      ∀ w ∈ sds, ∀ r ∈ w, ∃ (i : ℕ) (orig : List ℚ),
        (trial.drop trim_samples)[i]? = some orig ∧ r = orig.take 32) ∧
    (processing = none →
      ∀ w ∈ sds, ∀ r ∈ w, ∃ (i : ℕ), (trial.drop trim_samples)[i]? = some r) := by
  constructor
  · intro hp w hw r hr
    have hps : processing.isSome := by rcases hp with h | h <;> simp [h]
    have hct : channel_trim processing (trial.drop trim_samples)
        = (trial.drop trim_samples).map fun row => row.take 32 := by
      unfold channel_trim
      rw [if_pos hps]
    unfold pfsd_experiment_windows split_with_windows at hs
    rw [hct] at hs
    rcases optMap_mem _ _ _ hs w hw with ⟨wi, _, hwsome⟩
    rcases optMap_mem _ _ _ hwsome r hr with ⟨oi, _, hosome⟩
    cases oi with
    | none => simp at hosome
    | some i =>
        rw [Option.some_bind, List.getElem?_map] at hosome
        cases hd : (trial.drop trim_samples)[i]? with
        | none => rw [hd] at hosome; simp at hosome
        | some orig =>
            rw [hd, Option.map_some', Option.some.injEq] at hosome
            exact ⟨i, orig, hd, hosome.symm⟩
  · intro hp w hw r hr
    subst hp
    have hct : channel_trim none (trial.drop trim_samples) = trial.drop trim_samples := by
      unfold channel_trim
      simp
    unfold pfsd_experiment_windows split_with_windows at hs
    rw [hct] at hs
    rcases optMap_mem _ _ _ hs w hw with ⟨wi, _, hwsome⟩
    rcases optMap_mem _ _ _ hwsome r hr with ⟨oi, _, hosome⟩
    cases oi with
    | none => simp at hosome
    | some i =>
        rw [Option.some_bind] at hosome
        exact ⟨i, hosome⟩

/-- Claim C10 witness: the channel-selection theorem at a concrete
33-channel trial with a wavelet transform configured — the single window
row is the 32-channel prefix. -/
theorem C10_channel_selection_witness :
    (pfsd_experiment_windows (some "wavelet") 0 [(List.range 33).map fun i => (i : ℚ)]
        [[some 0]] = some [[(List.range 32).map fun i => (i : ℚ)]]) ∧
    (∀ w ∈ [[(List.range 32).map fun i => (i : ℚ)]], ∀ r ∈ w,
      ∃ (i : ℕ) (orig : List ℚ),
        (([(List.range 33).map fun i => (i : ℚ)].drop 0))[i]? = some orig ∧
        r = orig.take 32) :=
  ⟨rfl, (C10_channel_selection (some "wavelet") 0 [(List.range 33).map fun i => (i : ℚ)]
      [[some 0]] [[(List.range 32).map fun i => (i : ℚ)]] rfl).1 (Or.inl rfl)⟩

lemma apply_shuffle_map {α β : Type} (f : α → β) (p : List ℕ) (l : List α) :
    apply_shuffle p (l.map f) = (apply_shuffle p l).map f := by
  induction p with
  | nil => simp [apply_shuffle]
  | cons i q ih =>
      unfold apply_shuffle at ih ⊢
      by_cases hi : i < l.length
      · have hd : l[i]? = some l[i] := List.getElem?_eq_getElem hi
        have hdm : (l.map f)[i]? = some (f l[i]) := by
          rw [List.getElem?_map, hd, Option.map_some']
        rw [List.filterMap_cons_some hdm, List.filterMap_cons_some hd, ih, List.map_cons]
      · have hd : l[i]? = none := List.getElem?_eq_none (by omega)
        have hdm : (l.map f)[i]? = none := by
          rw [List.getElem?_map, hd, Option.map_none']
        rw [List.filterMap_cons_none hdm, List.filterMap_cons_none hd, ih]

lemma apply_shuffle_length {α : Type} (p : List ℕ) (l : List α)
    (hb : ∀ i ∈ p, i < l.length) : (apply_shuffle p l).length = p.length := by
  induction p with
  | nil => simp [apply_shuffle]
  | cons i q ih =>
      unfold apply_shuffle at ih ⊢
      have hi : i < l.length := hb i (List.mem_cons_self i q)
      rw [List.filterMap_cons_some (List.getElem?_eq_getElem hi), List.length_cons,
        ih fun j hj => hb j (List.mem_cons_of_mem i hj)]
      simp

/-- Claim C6 (amended): in subject-independent mode shuffling does occur —
`process_file` with trial shuffle order `p` equals an unshuffled run
(identity order) on the `p`-permuted trial array, i.e. the trial order is
shuffled before windowing, while the labels argument stays in original
order on both sides (the labels array is not co-shuffled).  Window order
within each trial is additionally shuffled by `window_perms`, and the
per-file output order is the post-shuffle generation order (the write
order the model returns). -/
theorem C6_subject_independent_shuffles (data : List (List (List ℚ)))
    (labels : List (List ℚ)) (vc ac dc lc : ℕ) (window_perms : ℕ → List ℕ)
    (trim_samples target_splits : ℕ) (p : List ℕ)
    (hp : p.Perm (List.range data.length)) :
    process_file_own data labels vc ac dc lc p window_perms trim_samples target_splits
      = process_file_own (apply_shuffle p data) labels vc ac dc lc
          (List.range data.length) window_perms trim_samples target_splits := by
  have hlen1 : p.length = data.length := by simpa using hp.length_eq
  have hbound : ∀ i ∈ p, i < data.length := by
    intro i hi
    have := hp.mem_iff.mp hi
    simpa using this
  have hlen2 : (apply_shuffle p data).length = data.length := by
    rw [apply_shuffle_length p data hbound, hlen1]
  unfold process_file_own
  rw [apply_shuffle_map, apply_shuffle_map, ← hlen2, apply_shuffle_range]

/-- Claim C6 witness: the amended theorem at a concrete two-trial file with
the swap order `[1, 0]`. -/
theorem C6_subject_independent_shuffles_witness :
    (([1, 0] : List ℕ).Perm (List.range 2)) ∧
    (process_file_own [[[(0 : ℚ)]], [[1]]] [[1, 1, 1, 1], [5, 5, 5, 5]] 2 2 2 2
        [1, 0] (fun _ => [0]) 0 1
      = process_file_own (apply_shuffle [1, 0] [[[(0 : ℚ)]], [[1]]])
          [[1, 1, 1, 1], [5, 5, 5, 5]] 2 2 2 2
          (List.range 2) (fun _ => [0]) 0 1) :=
  ⟨by decide, by
    have h := C6_subject_independent_shuffles [[[(0 : ℚ)]], [[1]]]
      [[1, 1, 1, 1], [5, 5, 5, 5]] 2 2 2 2 (fun _ => [0]) 0 1 [1, 0] (by decide)
    simpa using h⟩

/-- Claim C6 (counterexample to the claim as stated): shuffling does occur
in subject-independent mode.  On a two-trial file, running `process_file`
with the drawn trial order `[1, 0]` writes trial 1's data first —
moreover it is paired with trial 0's binned labels, because
`np.random.shuffle(data)` reorders only the data array — so the output is
not the unshuffled generation order, and differs from the run with the
identity order `[0, 1]`. -/
theorem C6_shuffle_alters_output :
    process_file_own [[[(0 : ℚ)]], [[1]]] [[1, 1, 1, 1], [5, 5, 5, 5]] 2 2 2 2
        [1, 0] (fun _ => [0]) 0 1
      = some [([[1]], [0, 0, 0, 0]), ([[0]], [1, 1, 1, 1])] ∧
    process_file_own [[[(0 : ℚ)]], [[1]]] [[1, 1, 1, 1], [5, 5, 5, 5]] 2 2 2 2
        [0, 1] (fun _ => [0]) 0 1
      = some [([[0]], [0, 0, 0, 0]), ([[1]], [1, 1, 1, 1])] ∧
    process_file_own [[[(0 : ℚ)]], [[1]]] [[1, 1, 1, 1], [5, 5, 5, 5]] 2 2 2 2
        [1, 0] (fun _ => [0]) 0 1
      ≠ process_file_own [[[(0 : ℚ)]], [[1]]] [[1, 1, 1, 1], [5, 5, 5, 5]] 2 2 2 2
        [0, 1] (fun _ => [0]) 0 1 := by
  have hr2 : List.range 2 = [0, 1] := rfl
  have ht1 : (LabelTransformer.init 2 2 2 2).transform_labels [1, 1, 1, 1]
      = some [0, 0, 0, 0] := by
    norm_num [LabelTransformer.transform_labels, LabelTransformer.init,
      transform_label_channel_with_classes, classifyFind, build_classes, hr2]
  have ht5 : (LabelTransformer.init 2 2 2 2).transform_labels [5, 5, 5, 5]
      = some [1, 1, 1, 1] := by
    norm_num [LabelTransformer.transform_labels, LabelTransformer.init,
      transform_label_channel_with_classes, classifyFind, build_classes, hr2]
  have htr0 : ([[(0 : ℚ)]] : List (List ℚ)).transpose = [[0]] := rfl
  have htr1 : ([[(1 : ℚ)]] : List (List ℚ)).transpose = [[1]] := rfl
  have h1 : process_file_own [[[(0 : ℚ)]], [[1]]] [[1, 1, 1, 1], [5, 5, 5, 5]] 2 2 2 2
      [1, 0] (fun _ => [0]) 0 1
      = some [([[1]], [0, 0, 0, 0]), ([[0]], [1, 1, 1, 1])] := by
    simp [process_file_own, process_file_own_core, apply_shuffle, optMap, np_split,
      ht1, ht5, htr0, htr1, hr2]
  have h2 : process_file_own [[[(0 : ℚ)]], [[1]]] [[1, 1, 1, 1], [5, 5, 5, 5]] 2 2 2 2
      [0, 1] (fun _ => [0]) 0 1
      = some [([[0]], [0, 0, 0, 0]), ([[1]], [1, 1, 1, 1])] := by
    simp [process_file_own, process_file_own_core, apply_shuffle, optMap, np_split,
      ht1, ht5, htr0, htr1, hr2]
  refine ⟨h1, h2, ?_⟩
  rw [h1, h2]
  intro h
  simp only [Option.some.injEq, List.cons.injEq, Prod.mk.injEq] at h
  exact absurd h.1.1 (by norm_num)
